import Mathlib

set_option linter.unusedVariables false

/-!
Verification of the load-test engine of BenchmarkMe (`src/main.go`).

The engine consists of:
* `generateHMACSignature` (line 740) — not needed by the properties below;
* `runLoadTest` (lines 746-983) — the concurrent orchestrator;
* `executeRequest` (lines 1143-1193) — the single-request path.

Modelling conventions:
* Go `float64` values (durations, rates) are modelled as `ℚ` (exact
  arithmetic over the same field operations the code performs);
* Go `int` is modelled as `ℤ` (no value in these claims approaches 2^63,
  so wrap-around is irrelevant and not modelled);
* wall-clock time is a rational number of seconds; `time.Now()` readings
  are nondeterministic, nondecreasing inputs of the model;
* the concurrent worker loop of `runLoadTest` is a small-step transition
  relation over an explicit shared state; each critical section of the
  source (one `resultsMutex.Lock()`/`Unlock()` pair) is one atomic step,
  and the code outside critical sections is split into separate steps, so
  every interleaving the lock discipline of the source permits is a trace
  of the relation;
* network behaviour (construction errors, transport errors, status codes,
  measured latencies) is an unconstrained environment choice.
-/

namespace BenchmarkMe

/-- `BenchmarkResult` (main.go lines 71-76): one completed attempt. -/
structure BenchmarkResult where
  Seq : ℤ
  Timestamp : String
  Duration : ℚ
  Status : ℤ
  deriving Repr, DecidableEq

/-- `RequestConfig` (main.go lines 78-89). -/
structure RequestConfig where
  URL : String
  Method : String
  Headers : String
  Body : String
  ContentType : String
  User : String
  Secret : String
  Count : ℤ
  Duration : ℤ
  ConcurrentUsers : ℤ
  deriving Repr, DecidableEq

/-- `BenchmarkStats` (main.go lines 91-96). -/
structure BenchmarkStats where
  Avg : ℚ
  Min : ℚ
  Max : ℚ
  P90 : ℚ
  P95 : ℚ
  P99 : ℚ
  Success : ℤ
  Total : ℤ
  ErrorRate : ℤ
  RequestsPerSecond : ℚ
  TotalDuration : ℚ
  deriving Repr, DecidableEq

/-- Success classification of a recorded status (main.go line 842:
`status >= 200 && status < 400`). -/
def isSuccessStatus (status : ℤ) : Bool :=
  200 ≤ status && status < 400

/-- The mutable accumulators of `runLoadTest` that live next to the result
log (main.go lines 750-753): `successCount`, `totalDuration`, `minDur`
(sentinel 999999), `maxDur`. -/
structure Accum where
  successCount : ℤ
  totalDuration : ℚ
  minDur : ℚ
  maxDur : ℚ
  deriving Repr, DecidableEq

/-- Initial accumulator values (main.go lines 750-753). -/
def initAccum : Accum :=
  { successCount := 0, totalDuration := 0, minDur := 999999, maxDur := 0 }

/-- The success-count update (main.go lines 842-846): performed in its own
critical section, before the result is appended. -/
def bumpSuccess (a : Accum) (status : ℤ) : Accum :=
  if isSuccessStatus status then { a with successCount := a.successCount + 1 } else a

/-- The duration-accumulator update performed in the append critical
section (main.go lines 851-857). -/
def updateAccumDur (a : Accum) (d : ℚ) : Accum :=
  { a with
    totalDuration := a.totalDuration + d
    minDur := if d < a.minDur then d else a.minDur
    maxDur := if a.maxDur < d then d else a.maxDur }

/-! ### The duration sort (main.go lines 934-940)

The source sorts the duration slice in place with a double loop:
`for i`, `for j > i`, `if durations[i] > durations[j] { swap }`.
`exchangePass x l` is the inner loop with current value `x` of
`durations[i]` scanning the tail `l`; it returns the value left at
position `i` after the pass together with the updated tail.
`exchangeSortAux`/`exchangeSort` is the outer loop; since each inner pass
preserves the tail length, fuel `l.length` exactly exhausts the list. -/

def exchangePass (x : ℚ) : List ℚ → ℚ × List ℚ
  | [] => (x, [])
  | y :: ys =>
    if y < x then
      let p := exchangePass y ys
      (p.1, x :: p.2)
    else
      let p := exchangePass x ys
      (p.1, y :: p.2)

def exchangeSortAux : ℕ → List ℚ → List ℚ
  | 0, _ => []
  | _, [] => []
  | n + 1, x :: xs => (exchangePass x xs).1 :: exchangeSortAux n (exchangePass x xs).2

def exchangeSort (l : List ℚ) : List ℚ :=
  exchangeSortAux l.length l

/-- Percentile index (main.go lines 960-972):
`p90Index := int(0.9 * float64(len(durations)))` truncates a nonnegative
product toward zero, i.e. takes the floor; lines 964-972 clamp each index
to `len(durations) - 1`. -/
def percentileIndex (p : ℚ) (n : ℕ) : ℤ :=
  if (n : ℤ) ≤ ⌊p * (n : ℚ)⌋ then (n : ℤ) - 1 else ⌊p * (n : ℚ)⌋

/-- The final statistics pass of `runLoadTest` (main.go lines 926-980),
as a function of the completed result log, the final accumulator values,
and the measured wall-clock elapsed seconds (`time.Since(startTime)` at
line 955).  The percentile reads `durations[p90Index]` are modelled with
`getD`; the in-bounds fact is proved separately.  The source guards the
percentile block by `len(durations) > 0` inside `stats.Total > 0`; since
`durations` has exactly one entry per result these coincide.
`ErrorRate` uses Go integer division, which truncates toward zero
(`Int.tdiv`). -/
def finalStats (results : List BenchmarkResult) (acc : Accum) (elapsedSec : ℚ) :
    BenchmarkStats :=
  let durations := exchangeSort (results.map (fun r => r.Duration))
  let total : ℤ := (results.length : ℤ)
  let s0 : BenchmarkStats :=
    { Avg := 0, Min := acc.minDur, Max := acc.maxDur, P90 := 0, P95 := 0, P99 := 0,
      Success := acc.successCount, Total := total, ErrorRate := 0,
      RequestsPerSecond := 0, TotalDuration := acc.totalDuration }
  if 0 < total then
    let n := durations.length
    { s0 with
      Avg := acc.totalDuration / (total : ℚ)
      ErrorRate := Int.tdiv ((total - acc.successCount) * 100) total
      RequestsPerSecond := (total : ℚ) / elapsedSec
      P90 := durations.getD (percentileIndex (9/10) n).toNat 0
      P95 := durations.getD (percentileIndex (19/20) n).toNat 0
      P99 := durations.getD (percentileIndex (99/100) n).toNat 0 }
  else
    { s0 with Min := 0 }

/-- The all-zero statistics value. -/
def zeroStats : BenchmarkStats :=
  { Avg := 0, Min := 0, Max := 0, P90 := 0, P95 := 0, P99 := 0,
    Success := 0, Total := 0, ErrorRate := 0,
    RequestsPerSecond := 0, TotalDuration := 0 }

/-! ### The single-request path `executeRequest` (main.go lines 1143-1193) -/

/-- Environment choices for one invocation of `executeRequest`: whether
`http.NewRequest` fails (line 1151), whether `client.Do` fails
(line 1178), the response status code when it succeeds, the measured
elapsed milliseconds of `client.Do`, and the formatted clock strings the
code reads.  Header assembly (lines 1156-1175) only mutates the outgoing
request and never the returned `BenchmarkResult`, so it is absorbed into
the environment. -/
structure HttpOutcome where
  constructErr : Bool
  sendErr : Bool
  statusCode : ℤ
  elapsedMs : ℚ
  nowStr : String
  startStr : String
  deriving Repr, DecidableEq

/-- `executeRequest` (main.go lines 1143-1193). On a construction error it
returns `{Seq, now, 0, 0}` (line 1153); otherwise the status is `0` on a
transport error and `resp.StatusCode` otherwise (lines 1181-1185), with
the measured duration (line 1179). -/
def executeRequest (cfg : RequestConfig) (seq : ℤ) (o : HttpOutcome) :
    BenchmarkResult :=
  if o.constructErr then
    { Seq := seq, Timestamp := o.nowStr, Duration := 0, Status := 0 }
  else
    { Seq := seq, Timestamp := o.startStr, Duration := o.elapsedMs,
      Status := if o.sendErr then 0 else o.statusCode }

/-! ### The worker loop of `runLoadTest` (main.go lines 746-923)

State machine model.  One `RunState` holds everything the goroutines
share: the wall clock, the result log, the accumulators and each worker's
program point.  One `Step` is either passage of time, or one worker
executing one contiguous code region that touches shared data:

* `cancel` — the non-blocking receive on `cancelChan` (lines 776-780);
  only enabled when the environment ever closes the channel;
* `stopDur`/`passDur` — duration mode: the deadline check (line 785) and
  the pre-flight guard `time.Now().Add(10*time.Second).After(endTime)`
  (line 800), both evaluated at the current clock.  A worker breaks out
  exactly when `clock > endTime` or `clock + 10 > endTime`; the first
  condition implies the second, so `endTime < clock + 10` is the exact
  break condition, and its negation the exact pass condition.  Evaluating
  both checks at one clock reading loses no behaviour because `tick` can
  advance the clock arbitrarily right before the step;
* `stopCount`/`passCount` — count mode: the locked read of `len(results)`
  compared against `cfg.Count` (lines 789-795);
* `constructFail` — `http.NewRequest` failed (line 811): the iteration is
  skipped silently, nothing is recorded;
* `record` — the request executed with some measured duration and final
  status (0 on transport error, lines 834-841), and the success counter
  was updated in its own critical section (lines 842-846);
* `append` — the append critical section (lines 849-872): duration
  accumulators are updated and the result is appended with
  `Seq = len(results) + 1` (line 861).  The progress and realtime
  callbacks (lines 874-903) read the copies made here and never write
  engine state, and the pacing sleep (line 907) only lets time pass, so
  neither gets an own step. -/
inductive WorkerPhase where
  | head
  | flight
  | recorded (d : ℚ) (st : ℤ)
  | done
  deriving Repr, DecidableEq

/-- The shared state of one run of `runLoadTest`. -/
structure RunState where
  clock : ℚ
  log : List BenchmarkResult
  acc : Accum
  workers : List WorkerPhase
  deriving Repr, DecidableEq

/-- Per-run constants: the configuration, the sampled `startTime`
(line 755) and whether the caller ever signals `cancelChan`. -/
structure RunEnv where
  cfg : RequestConfig
  startTime : ℚ
  canCancel : Bool
  deriving Repr, DecidableEq

/-- `useDuration := cfg.Duration > 0` (main.go line 759). -/
def RunEnv.useDuration (env : RunEnv) : Bool :=
  decide (0 < env.cfg.Duration)

/-- `endTime = startTime.Add(cfg.Duration seconds)` (main.go line 761). -/
def RunEnv.endTime (env : RunEnv) : ℚ :=
  env.startTime + (env.cfg.Duration : ℚ)

/-- The fixed 10-second client timeout (main.go lines 771 and 800). -/
def requestTimeout : ℚ := 10

/-- `users := cfg.ConcurrentUsers; if users < 1 { users = 1 }`
(main.go lines 912-915). -/
def numUsers (cfg : RequestConfig) : ℕ :=
  if cfg.ConcurrentUsers < 1 then 1 else cfg.ConcurrentUsers.toNat

/-- State at the moment the workers have been spawned (lines 917-920):
empty log, fresh accumulators, all workers at the loop head.  `t0` is the
clock at that moment; the theorems assume at most `startTime ≤ t0` or
`startTime < t0` (the spawn happens after `startTime` is sampled). -/
def initState (env : RunEnv) (t0 : ℚ) : RunState :=
  { clock := t0, log := [], acc := initAccum,
    workers := List.replicate (numUsers env.cfg) WorkerPhase.head }

inductive Step (env : RunEnv) : RunState → RunState → Prop where
  | tick (s : RunState) (t : ℚ) (ht : s.clock ≤ t) :
      Step env s { s with clock := t }
  | cancel (s : RunState) (i : ℕ) (hc : env.canCancel = true)
      (hw : s.workers[i]? = some WorkerPhase.head) :
      Step env s { s with workers := s.workers.set i WorkerPhase.done }
  | stopDur (s : RunState) (i : ℕ) (hm : env.useDuration = true)
      (hw : s.workers[i]? = some WorkerPhase.head)
      (hg : env.endTime < s.clock + requestTimeout) :
      Step env s { s with workers := s.workers.set i WorkerPhase.done }
  | passDur (s : RunState) (i : ℕ) (hm : env.useDuration = true)
      (hw : s.workers[i]? = some WorkerPhase.head)
      (hg : s.clock + requestTimeout ≤ env.endTime) :
      Step env s { s with workers := s.workers.set i WorkerPhase.flight }
  | stopCount (s : RunState) (i : ℕ) (hm : env.useDuration = false)
      (hw : s.workers[i]? = some WorkerPhase.head)
      (hg : env.cfg.Count ≤ (s.log.length : ℤ)) :
      Step env s { s with workers := s.workers.set i WorkerPhase.done }
  | passCount (s : RunState) (i : ℕ) (hm : env.useDuration = false)
      (hw : s.workers[i]? = some WorkerPhase.head)
      (hg : (s.log.length : ℤ) < env.cfg.Count) :
      Step env s { s with workers := s.workers.set i WorkerPhase.flight }
  | constructFail (s : RunState) (i : ℕ)
      (hw : s.workers[i]? = some WorkerPhase.flight) :
      Step env s { s with workers := s.workers.set i WorkerPhase.head }
  | record (s : RunState) (i : ℕ) (d : ℚ) (st : ℤ)
      (hw : s.workers[i]? = some WorkerPhase.flight) (hd : 0 ≤ d) :
      Step env s { s with workers := s.workers.set i (WorkerPhase.recorded d st),
                          acc := bumpSuccess s.acc st }
  | append (s : RunState) (i : ℕ) (d : ℚ) (st : ℤ) (ts : String)
      (hw : s.workers[i]? = some (WorkerPhase.recorded d st)) :
      Step env s { s with workers := s.workers.set i WorkerPhase.head,
                          acc := updateAccumDur s.acc d,
                          log := s.log ++ [{ Seq := (s.log.length : ℤ) + 1,
                                             Timestamp := ts, Duration := d,
                                             Status := st }] }

/-- Reachability along worker steps. -/
def Reach (env : RunEnv) : RunState → RunState → Prop :=
  Relation.ReflTransGen (Step env)

/-- The run has ended: `wg.Wait()` (line 923) has returned, i.e. every
worker goroutine has returned. -/
def Terminal (s : RunState) : Prop :=
  ∀ w ∈ s.workers, w = WorkerPhase.done

instance (s : RunState) : Decidable (Terminal s) :=
  inferInstanceAs (Decidable (∀ w ∈ s.workers, w = WorkerPhase.done))

/-- Number of results classified as successes in a log. -/
def countSuccess (log : List BenchmarkResult) : ℕ :=
  (log.filter (fun r => isSuccessStatus r.Status)).length

/-- A worker that has passed the stop checks but not yet appended. -/
def WorkerPhase.isInFlight : WorkerPhase → Bool
  | WorkerPhase.flight => true
  | WorkerPhase.recorded _ _ => true
  | _ => false

/-- A worker that has bumped `successCount` but not yet appended. -/
def WorkerPhase.isRecSuccess : WorkerPhase → Bool
  | WorkerPhase.recorded _ st => isSuccessStatus st
  | _ => false

def flightCount (ws : List WorkerPhase) : ℕ :=
  ws.countP (fun w => w.isInFlight)

def recSuccCount (ws : List WorkerPhase) : ℕ :=
  ws.countP (fun w => w.isRecSuccess)

/-- Running-minimum fold with the 999999 sentinel (lines 752, 852-854). -/
def minFold (l : List ℚ) : ℚ :=
  l.foldl (fun m d => if d < m then d else m) 999999

/-- Running-maximum fold (lines 753, 855-857). -/
def maxFold (l : List ℚ) : ℚ :=
  l.foldl (fun m d => if m < d then d else m) 0

/-- The inductive invariant of the worker-loop state machine, relative to
the initial clock `t0`. -/
structure Inv (env : RunEnv) (t0 : ℚ) (s : RunState) : Prop where
  clock_lb : t0 ≤ s.clock
  workers_len : s.workers.length = numUsers env.cfg
  seq_ok : ∀ (i : ℕ) (h : i < s.log.length), (s.log.get ⟨i, h⟩).Seq = (i : ℤ) + 1
  succ_ok : s.acc.successCount = (countSuccess s.log : ℤ) + (recSuccCount s.workers : ℤ)
  dur_ok : s.acc.totalDuration = (s.log.map (fun r => r.Duration)).sum
  min_ok : s.acc.minDur = minFold (s.log.map (fun r => r.Duration))
  max_ok : s.acc.maxDur = maxFold (s.log.map (fun r => r.Duration))
  done_count : env.useDuration = false → env.canCancel = false →
    WorkerPhase.done ∈ s.workers → env.cfg.Count ≤ (s.log.length : ℤ)
  count_bound : env.useDuration = false → 1 ≤ env.cfg.Count →
    (s.log.length : ℤ) + (flightCount s.workers : ℤ)
      ≤ env.cfg.Count - 1 + (numUsers env.cfg : ℤ)
  quiet_short : env.useDuration = true → env.startTime < t0 →
    env.endTime ≤ env.startTime + requestTimeout →
    s.log = [] ∧ ∀ w ∈ s.workers, w = WorkerPhase.head ∨ w = WorkerPhase.done
  quiet_nonpos : env.useDuration = false → env.cfg.Count ≤ 0 →
    s.log = [] ∧ ∀ w ∈ s.workers, w = WorkerPhase.head ∨ w = WorkerPhase.done

/-! ### Concrete configurations and states used in witnesses and
counterexamples -/

/-- Count mode, `Count = 1`, two concurrent users. -/
def cfgRace : RequestConfig :=
  { URL := "http://localhost/", Method := "GET", Headers := "", Body := "",
    ContentType := "", User := "", Secret := "", Count := 1, Duration := 0,
    ConcurrentUsers := 2 }

def envRace : RunEnv := { cfg := cfgRace, startTime := 0, canCancel := false }

/-- Final state of the interleaving in which both workers pass the
`len(results) >= cfg.Count` check before either appends.  The accumulator
is kept as the unevaluated composition of the updates the two appends
perform. -/
def raceFinal : RunState :=
  { clock := 0,
    log := [{ Seq := 1, Timestamp := "", Duration := 1, Status := 200 },
            { Seq := 2, Timestamp := "", Duration := 1, Status := 200 }],
    acc := updateAccumDur
      (bumpSuccess (updateAccumDur (bumpSuccess initAccum 200) 1) 200) 1,
    workers := [WorkerPhase.done, WorkerPhase.done] }

/-- Count mode, `Count = 1`, one user, empty URL (an invalid
configuration in the sense of the specification). -/
def cfgOne : RequestConfig :=
  { URL := "", Method := "GET", Headers := "", Body := "", ContentType := "",
    User := "", Secret := "", Count := 1, Duration := 0, ConcurrentUsers := 1 }

def envOne : RunEnv := { cfg := cfgOne, startTime := 0, canCancel := false }

/-- Final state of an `envOne` run: one recorded transport-failure
attempt. -/
def oneFinal : RunState :=
  { clock := 0,
    log := [{ Seq := 1, Timestamp := "", Duration := 3, Status := 0 }],
    acc := updateAccumDur (bumpSuccess initAccum 0) 3,
    workers := [WorkerPhase.done] }

/-- Final state of a count-mode run with `Count = 1`, one user and one
successful attempt. -/
def okFinal : RunState :=
  { clock := 0,
    log := [{ Seq := 1, Timestamp := "", Duration := 2, Status := 200 }],
    acc := updateAccumDur (bumpSuccess initAccum 200) 2,
    workers := [WorkerPhase.done] }

/-- Count mode with `Count = 0` (a non-positive target), one user. -/
def cfgZero : RequestConfig :=
  { URL := "http://localhost/", Method := "GET", Headers := "", Body := "",
    ContentType := "", User := "", Secret := "", Count := 0, Duration := 0,
    ConcurrentUsers := 1 }

def envZero : RunEnv := { cfg := cfgZero, startTime := 0, canCancel := false }

/-- Terminal state of the `envZero` run: the count check fires at once. -/
def zeroFinal : RunState :=
  { clock := 0, log := [], acc := initAccum, workers := [WorkerPhase.done] }

/-- A sample outcome for `executeRequest`: construction succeeds, the send
times out after 7 measured milliseconds. -/
def sendFailOutcome : HttpOutcome :=
  { constructErr := false, sendErr := true, statusCode := 200, elapsedMs := 7,
    nowStr := "now", startStr := "start" }

/-- A recorded result with the informational status 101. -/
def result101 : BenchmarkResult :=
  { Seq := 1, Timestamp := "", Duration := 5, Status := 101 }

/-- A recorded result with a successful status. -/
def result200 : BenchmarkResult :=
  { Seq := 1, Timestamp := "", Duration := 5, Status := 200 }

/-- Duration mode with `Duration = 2` seconds, one user. -/
def cfgDur2 : RequestConfig :=
  { URL := "http://localhost/", Method := "GET", Headers := "", Body := "",
    ContentType := "", User := "", Secret := "", Count := 1, Duration := 2,
    ConcurrentUsers := 1 }

def envDur2 : RunEnv := { cfg := cfgDur2, startTime := 0, canCancel := false }

/-- Terminal state of the `envDur2` run: the pre-flight guard fires at
once, no attempt ever starts. -/
def dur2Final : RunState :=
  { clock := 0, log := [], acc := initAccum, workers := [WorkerPhase.done] }

/-- Terminal state of the `envDur2` run started at clock 1. -/
def dur2FinalLate : RunState :=
  { clock := 1, log := [], acc := initAccum, workers := [WorkerPhase.done] }

/-- Duration mode with `Duration = 20` seconds (long enough for the
pre-flight guard to let an attempt start), one user. -/
def cfgDur20 : RequestConfig :=
  { URL := "http://localhost/", Method := "GET", Headers := "", Body := "",
    ContentType := "", User := "", Secret := "", Count := 1, Duration := 20,
    ConcurrentUsers := 1 }

def envDur20 : RunEnv := { cfg := cfgDur20, startTime := 0, canCancel := false }

/-! ## Theorems -/

theorem exchangePass_snd_length (x : ℚ) (l : List ℚ) :
    ((exchangePass x l).2).length = l.length := by
  induction l generalizing x with
  | nil => simp [exchangePass]
  | cons y ys ih =>
    simp only [exchangePass]
    split <;> simp [ih]

theorem exchangeSort_nil : exchangeSort [] = [] := rfl

theorem exchangeSort_cons (x : ℚ) (xs : List ℚ) :
    exchangeSort (x :: xs)
      = (exchangePass x xs).1 :: exchangeSort (exchangePass x xs).2 := by
  unfold exchangeSort
  rw [exchangePass_snd_length, List.length_cons]
  rfl

theorem exchangePass_perm (x : ℚ) (l : List ℚ) :
    ((exchangePass x l).1 :: (exchangePass x l).2).Perm (x :: l) := by
  induction l generalizing x with
  | nil => simp [exchangePass]
  | cons y ys ih =>
    simp only [exchangePass]
    split
    · exact (List.Perm.swap x (exchangePass y ys).1 (exchangePass y ys).2).trans
        ((ih y).cons x)
    · exact ((List.Perm.swap y (exchangePass x ys).1 (exchangePass x ys).2).trans
        ((ih x).cons y)).trans (List.Perm.swap x y ys)

theorem exchangePass_fst_le (x : ℚ) (l : List ℚ) :
    ∀ z ∈ x :: l, (exchangePass x l).1 ≤ z := by
  induction l generalizing x with
  | nil =>
    intro z hz
    rw [List.mem_singleton] at hz
    simp [exchangePass, hz]
  | cons y ys ih =>
    intro z hz
    simp only [exchangePass]
    split
    · have hyx : y < x := by assumption
      rcases List.mem_cons.mp hz with hzx | hz2
      · exact le_of_lt (lt_of_le_of_lt (ih y y (List.mem_cons_self y ys)) (hzx ▸ hyx))
      · exact ih y z hz2
    · have hxy : x ≤ y := le_of_not_lt (by assumption)
      rcases List.mem_cons.mp hz with hzx | hz2
      · exact hzx ▸ ih x x (List.mem_cons_self x ys)
      · rcases List.mem_cons.mp hz2 with hzy | hz3
        · subst hzy
          exact le_trans (ih x x (List.mem_cons_self x ys)) hxy
        · exact ih x z (List.mem_cons_of_mem x hz3)

theorem exchangeSort_perm (l : List ℚ) : (exchangeSort l).Perm l := by
  generalize hn : l.length = n
  induction n using Nat.strong_induction_on generalizing l with
  | _ n ih =>
    match l, hn with
    | [], _ => simp [exchangeSort_nil]
    | x :: xs, hn =>
      rw [exchangeSort_cons]
      have hlen : ((exchangePass x xs).2).length < n := by
        rw [← hn]
        simp [exchangePass_snd_length]
      exact ((ih _ hlen _ rfl).cons _).trans (exchangePass_perm x xs)

theorem exchangeSort_sorted (l : List ℚ) : (exchangeSort l).Sorted (· ≤ ·) := by
  generalize hn : l.length = n
  induction n using Nat.strong_induction_on generalizing l with
  | _ n ih =>
    match l, hn with
    | [], _ => simp [exchangeSort_nil]
    | x :: xs, hn =>
      rw [exchangeSort_cons]
      refine List.sorted_cons.mpr ⟨?_, ?_⟩
      · intro b hb
        have hb2 : b ∈ (exchangePass x xs).2 :=
          ((exchangeSort_perm _).mem_iff).mp hb
        have hbx : b ∈ x :: xs :=
          (exchangePass_perm x xs).mem_iff.mp (List.mem_cons_of_mem _ hb2)
        exact exchangePass_fst_le x xs b hbx
      · exact ih _ (by rw [← hn]; simp [exchangePass_snd_length]) _ rfl

theorem exchangeSort_length (l : List ℚ) : (exchangeSort l).length = l.length :=
  (exchangeSort_perm l).length_eq

theorem percentileIndex_nonneg {p : ℚ} (hp : 0 ≤ p) {n : ℕ} (hn : 1 ≤ n) :
    0 ≤ percentileIndex p n := by
  unfold percentileIndex
  split
  · omega
  · exact Int.le_floor.mpr (by exact_mod_cast mul_nonneg hp (Nat.cast_nonneg n))

theorem percentileIndex_lt (p : ℚ) (n : ℕ) : percentileIndex p n < n := by
  unfold percentileIndex
  split
  · omega
  · omega

theorem percentileIndex_mono {p q : ℚ} (hpq : p ≤ q) (n : ℕ) :
    percentileIndex p n ≤ percentileIndex q n := by
  unfold percentileIndex
  have hf : ⌊p * (n : ℚ)⌋ ≤ ⌊q * (n : ℚ)⌋ :=
    Int.floor_le_floor (mul_le_mul_of_nonneg_right hpq (Nat.cast_nonneg n))
  split <;> split <;> omega

/-- On a sorted list, reading at a smaller in-bounds index gives a smaller
value. -/
theorem sorted_getD_mono {l : List ℚ} (hs : l.Sorted (· ≤ ·)) {i j : ℕ}
    (hij : i ≤ j) (hj : j < l.length) : l.getD i 0 ≤ l.getD j 0 := by
  have hi : i < l.length := lt_of_le_of_lt hij hj
  rw [List.getD_eq_getElem?_getD, List.getD_eq_getElem?_getD,
      List.getElem?_eq_getElem hi, List.getElem?_eq_getElem hj]
  simpa using List.Sorted.rel_get_of_le hs (a := ⟨i, hi⟩) (b := ⟨j, hj⟩) hij

/-- Unfolding of `finalStats` on a non-empty log: the `stats.Total > 0`
branch of main.go lines 950-977. -/
theorem finalStats_of_ne_nil (results : List BenchmarkResult) (acc : Accum)
    (e : ℚ) (h : results ≠ []) :
    finalStats results acc e =
      { Avg := acc.totalDuration / (((results.length : ℤ)) : ℚ)
        Min := acc.minDur
        Max := acc.maxDur
        P90 := (exchangeSort (results.map (fun r => r.Duration))).getD
          (percentileIndex (9/10) results.length).toNat 0
        P95 := (exchangeSort (results.map (fun r => r.Duration))).getD
          (percentileIndex (19/20) results.length).toNat 0
        P99 := (exchangeSort (results.map (fun r => r.Duration))).getD
          (percentileIndex (99/100) results.length).toNat 0
        Success := acc.successCount
        Total := (results.length : ℤ)
        ErrorRate := Int.tdiv (((results.length : ℤ) - acc.successCount) * 100)
          (results.length : ℤ)
        RequestsPerSecond := (((results.length : ℤ)) : ℚ) / e
        TotalDuration := acc.totalDuration } := by
  have hpos : 0 < ((results.length : ℤ)) := by
    have := List.length_pos.mpr h
    omega
  simp only [finalStats, exchangeSort_length, List.length_map, if_pos hpos]

/-- Unfolding of `finalStats` on the empty log: the `else` branch of
main.go lines 978-980, which normalizes the `minDur` sentinel to 0. -/
theorem finalStats_nil (acc : Accum) (e : ℚ) :
    finalStats [] acc e =
      { Avg := 0, Min := 0, Max := acc.maxDur, P90 := 0, P95 := 0, P99 := 0,
        Success := acc.successCount, Total := 0, ErrorRate := 0,
        RequestsPerSecond := 0, TotalDuration := acc.totalDuration } := by
  simp [finalStats, exchangeSort_nil]

/-- The `Total` field is always the length of the summarized log
(main.go line 943). -/
theorem finalStats_Total (results : List BenchmarkResult) (acc : Accum) (e : ℚ) :
    (finalStats results acc e).Total = (results.length : ℤ) := by
  match results with
  | [] => rw [finalStats_nil]; rfl
  | r :: rs => rw [finalStats_of_ne_nil _ _ _ (by simp)]

/-- The `Success` field is always the final success counter
(main.go line 944). -/
theorem finalStats_Success (results : List BenchmarkResult) (acc : Accum) (e : ℚ) :
    (finalStats results acc e).Success = acc.successCount := by
  match results with
  | [] => rw [finalStats_nil]
  | r :: rs => rw [finalStats_of_ne_nil _ _ _ (by simp)]

/-! ### List helpers for the invariant proofs -/

theorem getElem?_lt {α : Type} {l : List α} {i : ℕ} {x : α}
    (hx : l[i]? = some x) : i < l.length := by
  rw [List.getElem?_eq_some] at hx
  exact hx.1

theorem get_of_getElem? {α : Type} {l : List α} {i : ℕ} {x : α}
    (hx : l[i]? = some x) (h : i < l.length) : l.get ⟨i, h⟩ = x := by
  rw [List.getElem?_eq_some] at hx
  obtain ⟨h2, he⟩ := hx
  simpa using he

theorem countP_set_eq {α : Type} (P : α → Bool) (l : List α) (i : ℕ) (x y : α)
    (hx : l[i]? = some x) :
    (l.set i y).countP P + (if P x then 1 else 0)
      = l.countP P + (if P y then 1 else 0) := by
  induction l generalizing i with
  | nil => simp at hx
  | cons a as ih =>
    cases i with
    | zero =>
      simp only [List.getElem?_cons_zero, Option.some_inj] at hx
      subst hx
      simp only [List.set_cons_zero, List.countP_cons]
      omega
    | succ n =>
      simp only [List.getElem?_cons_succ] at hx
      have h2 := ih n hx
      simp only [List.set_cons_succ, List.countP_cons]
      omega

theorem mem_set_of_mem_ne {α : Type} {l : List α} {a x : α} {i : ℕ} (y : α)
    (ha : a ∈ l) (hx : l[i]? = some x) (hne : a ≠ x) : a ∈ l.set i y := by
  obtain ⟨⟨j, hj⟩, hja⟩ := List.mem_iff_get.mp ha
  have hij : i ≠ j := by
    intro he
    subst he
    have := get_of_getElem? hx hj
    rw [hja] at this
    exact hne this
  have hj2 : j < (l.set i y).length := by simpa [List.length_set] using hj
  exact List.mem_iff_get.mpr ⟨⟨j, hj2⟩, by rw [List.get_set_ne hij hj2]; exact hja⟩

theorem mem_set_self {α : Type} {l : List α} {i : ℕ} {x : α} (y : α)
    (hx : l[i]? = some x) : y ∈ l.set i y := by
  have hi : i < l.length := getElem?_lt hx
  have hi2 : i < (l.set i y).length := by simpa [List.length_set] using hi
  exact List.mem_iff_get.mpr ⟨⟨i, hi2⟩, List.get_set_eq hi2⟩

theorem countP_succ_le_length {α : Type} {l : List α} {i : ℕ} {x : α}
    (P : α → Bool) (hx : l[i]? = some x) (hP : P x = false) :
    l.countP P + 1 ≤ l.length := by
  by_contra hcon
  have hle := List.countP_le_length (p := P) (l := l)
  have heq : l.countP P = l.length := by omega
  have := List.countP_eq_length.mp heq x (List.getElem?_mem hx)
  rw [hP] at this
  exact Bool.false_ne_true this

theorem one_le_numUsers (cfg : RequestConfig) : 1 ≤ numUsers cfg := by
  unfold numUsers
  split <;> omega

theorem flightCount_terminal {s : RunState} (ht : Terminal s) :
    flightCount s.workers = 0 := by
  rw [flightCount, List.countP_eq_zero]
  intro w hw
  rw [ht w hw]
  simp [WorkerPhase.isInFlight]

theorem recSuccCount_terminal {s : RunState} (ht : Terminal s) :
    recSuccCount s.workers = 0 := by
  rw [recSuccCount, List.countP_eq_zero]
  intro w hw
  rw [ht w hw]
  simp [WorkerPhase.isRecSuccess]

theorem countSuccess_le_length (log : List BenchmarkResult) :
    countSuccess log ≤ log.length :=
  List.length_filter_le _ log

theorem useDuration_iff (env : RunEnv) :
    env.useDuration = true ↔ 0 < env.cfg.Duration := by
  simp [RunEnv.useDuration]

theorem useDuration_false_iff (env : RunEnv) :
    env.useDuration = false ↔ env.cfg.Duration ≤ 0 := by
  simp [RunEnv.useDuration]

@[simp] theorem isInFlight_head : WorkerPhase.head.isInFlight = false := rfl

@[simp] theorem isInFlight_flight : WorkerPhase.flight.isInFlight = true := rfl

@[simp] theorem isInFlight_recorded (d : ℚ) (st : ℤ) :
    (WorkerPhase.recorded d st).isInFlight = true := rfl

@[simp] theorem isInFlight_done : WorkerPhase.done.isInFlight = false := rfl

@[simp] theorem isRecSuccess_head : WorkerPhase.head.isRecSuccess = false := rfl

@[simp] theorem isRecSuccess_flight : WorkerPhase.flight.isRecSuccess = false := rfl

@[simp] theorem isRecSuccess_recorded (d : ℚ) (st : ℤ) :
    (WorkerPhase.recorded d st).isRecSuccess = isSuccessStatus st := rfl

@[simp] theorem isRecSuccess_done : WorkerPhase.done.isRecSuccess = false := rfl

/-- Setting a worker slot changes `flightCount` by the in-flight
difference. -/
theorem flightCount_set {ws : List WorkerPhase} {i : ℕ} {x : WorkerPhase}
    (y : WorkerPhase) (hx : ws[i]? = some x) :
    flightCount (ws.set i y) + (if x.isInFlight then 1 else 0)
      = flightCount ws + (if y.isInFlight then 1 else 0) :=
  countP_set_eq _ ws i x y hx

/-- Setting a worker slot changes `recSuccCount` by the recorded-success
difference. -/
theorem recSuccCount_set {ws : List WorkerPhase} {i : ℕ} {x : WorkerPhase}
    (y : WorkerPhase) (hx : ws[i]? = some x) :
    recSuccCount (ws.set i y) + (if x.isRecSuccess then 1 else 0)
      = recSuccCount ws + (if y.isRecSuccess then 1 else 0) :=
  countP_set_eq _ ws i x y hx

theorem all_head_done_set {ws : List WorkerPhase} (i : ℕ) (y : WorkerPhase)
    (h : ∀ w ∈ ws, w = WorkerPhase.head ∨ w = WorkerPhase.done)
    (hy : y = WorkerPhase.head ∨ y = WorkerPhase.done) :
    ∀ w ∈ ws.set i y, w = WorkerPhase.head ∨ w = WorkerPhase.done := by
  intro w hw
  rcases List.mem_or_eq_of_mem_set hw with h1 | h2
  · exact h w h1
  · subst h2
    exact hy

theorem minFold_append (l : List ℚ) (d : ℚ) :
    minFold (l ++ [d]) = if d < minFold l then d else minFold l := by
  simp [minFold, List.foldl_append]

theorem maxFold_append (l : List ℚ) (d : ℚ) :
    maxFold (l ++ [d]) = if maxFold l < d then d else maxFold l := by
  simp [maxFold, List.foldl_append]

theorem countSuccess_append (log : List BenchmarkResult) (r : BenchmarkResult) :
    countSuccess (log ++ [r])
      = countSuccess log + (if isSuccessStatus r.Status then 1 else 0) := by
  by_cases h : isSuccessStatus r.Status
    <;> simp [countSuccess, List.filter_append, List.filter_cons, h]

theorem seq_ok_append {log : List BenchmarkResult} (r : BenchmarkResult)
    (hr : r.Seq = (log.length : ℤ) + 1)
    (h : ∀ (i : ℕ) (hi : i < log.length), (log.get ⟨i, hi⟩).Seq = (i : ℤ) + 1) :
    ∀ (i : ℕ) (hi : i < (log ++ [r]).length),
      ((log ++ [r]).get ⟨i, hi⟩).Seq = (i : ℤ) + 1 := by
  intro i hi
  by_cases hlt : i < log.length
  · rw [List.get_append i hlt]
    exact h i hlt
  · have hi2 : i < log.length + 1 := by simpa using hi
    have hieq : i = log.length := by omega
    subst hieq
    rw [List.get_of_append rfl rfl]
    exact hr

@[simp] theorem bumpSuccess_totalDuration (a : Accum) (st : ℤ) :
    (bumpSuccess a st).totalDuration = a.totalDuration := by
  unfold bumpSuccess
  split <;> rfl

@[simp] theorem bumpSuccess_minDur (a : Accum) (st : ℤ) :
    (bumpSuccess a st).minDur = a.minDur := by
  unfold bumpSuccess
  split <;> rfl

@[simp] theorem bumpSuccess_maxDur (a : Accum) (st : ℤ) :
    (bumpSuccess a st).maxDur = a.maxDur := by
  unfold bumpSuccess
  split <;> rfl

theorem bumpSuccess_successCount (a : Accum) (st : ℤ) :
    (bumpSuccess a st).successCount
      = a.successCount + (if isSuccessStatus st then 1 else 0) := by
  unfold bumpSuccess
  split <;> simp [*]

@[simp] theorem updateAccumDur_successCount (a : Accum) (d : ℚ) :
    (updateAccumDur a d).successCount = a.successCount := rfl

@[simp] theorem updateAccumDur_totalDuration (a : Accum) (d : ℚ) :
    (updateAccumDur a d).totalDuration = a.totalDuration + d := rfl

@[simp] theorem updateAccumDur_minDur (a : Accum) (d : ℚ) :
    (updateAccumDur a d).minDur = if d < a.minDur then d else a.minDur := rfl

@[simp] theorem updateAccumDur_maxDur (a : Accum) (d : ℚ) :
    (updateAccumDur a d).maxDur = if a.maxDur < d then d else a.maxDur := rfl

theorem inv_init (env : RunEnv) (t0 : ℚ) : Inv env t0 (initState env t0) := by
  have hrep : ∀ w ∈ (initState env t0).workers, w = WorkerPhase.head := by
    intro w hw
    exact List.eq_of_mem_replicate (by simpa [initState] using hw)
  refine ⟨le_refl t0, ?_, ?_, ?_, rfl, rfl, rfl, ?_, ?_, ?_, ?_⟩
  · simp [initState]
  · intro i h
    simp [initState] at h
  · have h0 : recSuccCount ((initState env t0).workers) = 0 := by
      rw [recSuccCount, List.countP_eq_zero]
      intro w hw
      rw [hrep w hw]
      simp
    rw [h0]
    simp [initState, initAccum, countSuccess]
  · intro hm hcc hmem
    have := hrep _ hmem
    simp at this
  · intro hm hcnt
    have h0 : flightCount ((initState env t0).workers) = 0 := by
      rw [flightCount, List.countP_eq_zero]
      intro w hw
      rw [hrep w hw]
      simp
    rw [h0]
    have h1 := one_le_numUsers env.cfg
    simp [initState]
    omega
  · intro hm hst hend
    exact ⟨rfl, fun w hw => Or.inl (hrep w hw)⟩
  · intro hm hcnt
    exact ⟨rfl, fun w hw => Or.inl (hrep w hw)⟩

theorem inv_step {env : RunEnv} {t0 : ℚ} {s1 s2 : RunState}
    (hstep : Step env s1 s2) (hinv : Inv env t0 s1) : Inv env t0 s2 := by
  obtain ⟨hclock, hwlen, hseq, hsucc, hdur, hmin, hmax, hdone, hcb, hqs, hqn⟩ := hinv
  cases hstep with
  | tick t ht =>
    exact ⟨le_trans hclock ht, hwlen, hseq, hsucc, hdur, hmin, hmax, hdone, hcb,
      hqs, hqn⟩
  | cancel i hc hw =>
    have hrs := recSuccCount_set WorkerPhase.done hw
    have hfc := flightCount_set WorkerPhase.done hw
    simp at hrs hfc
    refine ⟨hclock, by simpa [List.length_set] using hwlen, hseq, ?_, hdur, hmin,
      hmax, ?_, ?_, ?_, ?_⟩
    · dsimp only
      rw [hrs]
      exact hsucc
    · intro hm hcc hmem
      rw [hcc] at hc
      exact absurd hc (by simp)
    · intro hm hcnt
      dsimp only
      rw [hfc]
      exact hcb hm hcnt
    · intro hm hst hend
      obtain ⟨hlog, hwork⟩ := hqs hm hst hend
      exact ⟨hlog, all_head_done_set i _ hwork (Or.inr rfl)⟩
    · intro hm hcnt
      obtain ⟨hlog, hwork⟩ := hqn hm hcnt
      exact ⟨hlog, all_head_done_set i _ hwork (Or.inr rfl)⟩
  | stopDur i hm0 hw hg =>
    have hrs := recSuccCount_set WorkerPhase.done hw
    have hfc := flightCount_set WorkerPhase.done hw
    simp at hrs hfc
    refine ⟨hclock, by simpa [List.length_set] using hwlen, hseq, ?_, hdur, hmin,
      hmax, ?_, ?_, ?_, ?_⟩
    · dsimp only
      rw [hrs]
      exact hsucc
    · intro hm2 hcc hmem
      rw [hm2] at hm0
      exact absurd hm0 (by simp)
    · intro hm2 hcnt
      rw [hm2] at hm0
      exact absurd hm0 (by simp)
    · intro hm2 hst hend
      obtain ⟨hlog, hwork⟩ := hqs hm2 hst hend
      exact ⟨hlog, all_head_done_set i _ hwork (Or.inr rfl)⟩
    · intro hm2 hcnt
      rw [hm2] at hm0
      exact absurd hm0 (by simp)
  | passDur i hm0 hw hg =>
    have hrs := recSuccCount_set WorkerPhase.flight hw
    have hfc := flightCount_set WorkerPhase.flight hw
    simp at hrs hfc
    refine ⟨hclock, by simpa [List.length_set] using hwlen, hseq, ?_, hdur, hmin,
      hmax, ?_, ?_, ?_, ?_⟩
    · dsimp only
      rw [hrs]
      exact hsucc
    · intro hm2 hcc hmem
      rw [hm2] at hm0
      exact absurd hm0 (by simp)
    · intro hm2 hcnt
      rw [hm2] at hm0
      exact absurd hm0 (by simp)
    · intro hm2 hst hend
      exfalso
      linarith
    · intro hm2 hcnt
      rw [hm2] at hm0
      exact absurd hm0 (by simp)
  | stopCount i hm0 hw hg =>
    have hrs := recSuccCount_set WorkerPhase.done hw
    have hfc := flightCount_set WorkerPhase.done hw
    simp at hrs hfc
    refine ⟨hclock, by simpa [List.length_set] using hwlen, hseq, ?_, hdur, hmin,
      hmax, ?_, ?_, ?_, ?_⟩
    · dsimp only
      rw [hrs]
      exact hsucc
    · intro hm2 hcc hmem
      dsimp only at hmem ⊢
      rcases List.mem_or_eq_of_mem_set hmem with h1 | h2
      · exact hdone hm2 hcc h1
      · exact hg
    · intro hm2 hcnt
      dsimp only
      rw [hfc]
      exact hcb hm2 hcnt
    · intro hm2 hst hend
      rw [hm0] at hm2
      exact absurd hm2 (by simp)
    · intro hm2 hcnt
      obtain ⟨hlog, hwork⟩ := hqn hm2 hcnt
      exact ⟨hlog, all_head_done_set i _ hwork (Or.inr rfl)⟩
  | passCount i hm0 hw hg =>
    have hrs := recSuccCount_set WorkerPhase.flight hw
    have hfc := flightCount_set WorkerPhase.flight hw
    simp at hrs hfc
    refine ⟨hclock, by simpa [List.length_set] using hwlen, hseq, ?_, hdur, hmin,
      hmax, ?_, ?_, ?_, ?_⟩
    · dsimp only
      rw [hrs]
      exact hsucc
    · intro hm2 hcc hmem
      dsimp only at hmem ⊢
      rcases List.mem_or_eq_of_mem_set hmem with h1 | h2
      · exact hdone hm2 hcc h1
      · exact absurd h2 (by simp)
    · intro hm2 hcnt
      have hle : flightCount s1.workers + 1 ≤ s1.workers.length :=
        countP_succ_le_length _ hw (by simp)
      rw [hwlen] at hle
      have h0 := hcb hm2 hcnt
      dsimp only
      omega
    · intro hm2 hst hend
      rw [hm0] at hm2
      exact absurd hm2 (by simp)
    · intro hm2 hcnt
      exact absurd hg (by omega)
  | constructFail i hw =>
    have hrs := recSuccCount_set WorkerPhase.head hw
    have hfc := flightCount_set WorkerPhase.head hw
    simp at hrs hfc
    refine ⟨hclock, by simpa [List.length_set] using hwlen, hseq, ?_, hdur, hmin,
      hmax, ?_, ?_, ?_, ?_⟩
    · dsimp only
      rw [hrs]
      exact hsucc
    · intro hm2 hcc hmem
      dsimp only at hmem ⊢
      rcases List.mem_or_eq_of_mem_set hmem with h1 | h2
      · exact hdone hm2 hcc h1
      · exact absurd h2 (by simp)
    · intro hm2 hcnt
      have h0 := hcb hm2 hcnt
      dsimp only
      omega
    · intro hm2 hst hend
      obtain ⟨hlog, hwork⟩ := hqs hm2 hst hend
      have hmem : WorkerPhase.flight ∈ s1.workers := List.getElem?_mem hw
      rcases hwork _ hmem with h | h <;> simp at h
    · intro hm2 hcnt
      obtain ⟨hlog, hwork⟩ := hqn hm2 hcnt
      have hmem : WorkerPhase.flight ∈ s1.workers := List.getElem?_mem hw
      rcases hwork _ hmem with h | h <;> simp at h
  | record i d st hw hd =>
    have hrs := recSuccCount_set (WorkerPhase.recorded d st) hw
    have hfc := flightCount_set (WorkerPhase.recorded d st) hw
    simp at hrs hfc
    refine ⟨hclock, by simpa [List.length_set] using hwlen, hseq, ?_,
      by simpa using hdur, by simpa using hmin, by simpa using hmax,
      ?_, ?_, ?_, ?_⟩
    · dsimp only
      rw [bumpSuccess_successCount, hsucc, hrs]
      by_cases hb : isSuccessStatus st <;> simp [hb] <;> push_cast <;> ring
    · intro hm2 hcc hmem
      dsimp only at hmem ⊢
      rcases List.mem_or_eq_of_mem_set hmem with h1 | h2
      · exact hdone hm2 hcc h1
      · exact absurd h2 (by simp)
    · intro hm2 hcnt
      dsimp only
      rw [hfc]
      exact hcb hm2 hcnt
    · intro hm2 hst hend
      obtain ⟨hlog, hwork⟩ := hqs hm2 hst hend
      have hmem : WorkerPhase.flight ∈ s1.workers := List.getElem?_mem hw
      rcases hwork _ hmem with h | h <;> simp at h
    · intro hm2 hcnt
      obtain ⟨hlog, hwork⟩ := hqn hm2 hcnt
      have hmem : WorkerPhase.flight ∈ s1.workers := List.getElem?_mem hw
      rcases hwork _ hmem with h | h <;> simp at h
  | append i d st ts hw =>
    have hrs := recSuccCount_set WorkerPhase.head hw
    have hfc := flightCount_set WorkerPhase.head hw
    simp at hrs hfc
    refine ⟨hclock, by simpa [List.length_set] using hwlen, ?_, ?_, ?_, ?_, ?_,
      ?_, ?_, ?_, ?_⟩
    · dsimp only
      exact seq_ok_append _ rfl hseq
    · dsimp only
      rw [updateAccumDur_successCount, hsucc, countSuccess_append]
      by_cases hb : isSuccessStatus st <;> simp [hb] at hrs ⊢ <;> omega
    · dsimp only
      rw [updateAccumDur_totalDuration, hdur]
      simp [List.map_append]
    · dsimp only
      rw [updateAccumDur_minDur, hmin, List.map_append]
      simp [minFold_append]
    · dsimp only
      rw [updateAccumDur_maxDur, hmax, List.map_append]
      simp [maxFold_append]
    · intro hm2 hcc hmem
      dsimp only at hmem ⊢
      rcases List.mem_or_eq_of_mem_set hmem with h1 | h2
      · have h0 := hdone hm2 hcc h1
        simp only [List.length_append, List.length_cons, List.length_nil]
        omega
      · exact absurd h2 (by simp)
    · intro hm2 hcnt
      have h0 := hcb hm2 hcnt
      dsimp only
      simp only [List.length_append, List.length_cons, List.length_nil]
      omega
    · intro hm2 hst hend
      obtain ⟨hlog, hwork⟩ := hqs hm2 hst hend
      have hmem : WorkerPhase.recorded d st ∈ s1.workers := List.getElem?_mem hw
      rcases hwork _ hmem with h | h <;> simp at h
    · intro hm2 hcnt
      obtain ⟨hlog, hwork⟩ := hqn hm2 hcnt
      have hmem : WorkerPhase.recorded d st ∈ s1.workers := List.getElem?_mem hw
      rcases hwork _ hmem with h | h <;> simp at h

theorem inv_reach {env : RunEnv} {t0 : ℚ} {s : RunState}
    (h : Reach env (initState env t0) s) : Inv env t0 s := by
  induction h with
  | refl => exact inv_init env t0
  | tail h1 h2 ih => exact inv_step h2 ih

/-- At a terminal state the accumulators are exactly the folds of the
log: every success increment has been followed by its append, and the
duration accumulators are updated in the append critical section. -/
theorem terminal_acc {env : RunEnv} {t0 : ℚ} {s : RunState}
    (hr : Reach env (initState env t0) s) (ht : Terminal s) :
    s.acc.successCount = (countSuccess s.log : ℤ)
    ∧ s.acc.totalDuration = (s.log.map (fun r => r.Duration)).sum
    ∧ s.acc.minDur = minFold (s.log.map (fun r => r.Duration))
    ∧ s.acc.maxDur = maxFold (s.log.map (fun r => r.Duration)) := by
  have inv := inv_reach hr
  refine ⟨?_, inv.dur_ok, inv.min_ok, inv.max_ok⟩
  rw [inv.succ_ok, recSuccCount_terminal ht]
  simp

theorem terminal_empty_acc {env : RunEnv} {t0 : ℚ} {s : RunState}
    (hr : Reach env (initState env t0) s) (ht : Terminal s)
    (hempty : s.log = []) : s.acc = initAccum := by
  obtain ⟨h1, h2, h3, h4⟩ := terminal_acc hr ht
  rw [hempty] at h1 h2 h3 h4
  simp [countSuccess] at h1
  simp at h2
  rw [show s.acc = ⟨s.acc.successCount, s.acc.totalDuration, s.acc.minDur,
        s.acc.maxDur⟩ from rfl, h1, h2, h3, h4]
  rfl

/-- In a terminal state with at least one worker, some worker is done. -/
theorem terminal_done_mem {env : RunEnv} {t0 : ℚ} {s : RunState}
    (hr : Reach env (initState env t0) s) (ht : Terminal s) :
    WorkerPhase.done ∈ s.workers := by
  have inv := inv_reach hr
  have h1 := one_le_numUsers env.cfg
  match hws : s.workers with
  | [] =>
    have hlen := inv.workers_len
    rw [hws] at hlen
    simp at hlen
    omega
  | w :: ws2 =>
    have hwd := ht w (by rw [hws]; exact List.mem_cons_self w ws2)
    subst hwd
    exact List.mem_cons_self _ ws2

/-! ### Concrete runs -/

theorem okReach : Reach envOne (initState envOne 0) okFinal := by
  refine Relation.ReflTransGen.head
    (Step.passCount _ 0 rfl rfl (by decide)) ?_
  refine Relation.ReflTransGen.head
    (Step.record _ 0 2 200 rfl (by norm_num)) ?_
  refine Relation.ReflTransGen.head
    (Step.append _ 0 2 200 "" rfl) ?_
  refine Relation.ReflTransGen.head
    (Step.stopCount _ 0 rfl rfl (by decide)) ?_
  exact Relation.ReflTransGen.refl

theorem oneReach : Reach envOne (initState envOne 0) oneFinal := by
  refine Relation.ReflTransGen.head
    (Step.passCount _ 0 rfl rfl (by decide)) ?_
  refine Relation.ReflTransGen.head
    (Step.record _ 0 3 0 rfl (by norm_num)) ?_
  refine Relation.ReflTransGen.head
    (Step.append _ 0 3 0 "" rfl) ?_
  refine Relation.ReflTransGen.head
    (Step.stopCount _ 0 rfl rfl (by decide)) ?_
  exact Relation.ReflTransGen.refl

theorem raceReach : Reach envRace (initState envRace 0) raceFinal := by
  refine Relation.ReflTransGen.head
    (Step.passCount _ 0 rfl rfl (by decide)) ?_
  refine Relation.ReflTransGen.head
    (Step.passCount _ 1 rfl rfl (by decide)) ?_
  refine Relation.ReflTransGen.head
    (Step.record _ 0 1 200 rfl (by norm_num)) ?_
  refine Relation.ReflTransGen.head
    (Step.append _ 0 1 200 "" rfl) ?_
  refine Relation.ReflTransGen.head
    (Step.record _ 1 1 200 rfl (by norm_num)) ?_
  refine Relation.ReflTransGen.head
    (Step.append _ 1 1 200 "" rfl) ?_
  refine Relation.ReflTransGen.head
    (Step.stopCount _ 0 rfl rfl (by decide)) ?_
  refine Relation.ReflTransGen.head
    (Step.stopCount _ 1 rfl rfl (by decide)) ?_
  exact Relation.ReflTransGen.refl

theorem zeroReach : Reach envZero (initState envZero 0) zeroFinal := by
  refine Relation.ReflTransGen.head
    (Step.stopCount _ 0 rfl rfl (by decide)) ?_
  exact Relation.ReflTransGen.refl

theorem dur2Reach : Reach envDur2 (initState envDur2 0) dur2Final := by
  refine Relation.ReflTransGen.head
    (Step.stopDur _ 0 rfl rfl
      (by norm_num [RunEnv.endTime, requestTimeout, envDur2, cfgDur2, initState])) ?_
  exact Relation.ReflTransGen.refl

theorem dur2LateReach : Reach envDur2 (initState envDur2 1) dur2FinalLate := by
  refine Relation.ReflTransGen.head
    (Step.stopDur _ 0 rfl rfl
      (by norm_num [RunEnv.endTime, requestTimeout, envDur2, cfgDur2, initState])) ?_
  exact Relation.ReflTransGen.refl

/-- Inversion: whenever one step takes worker `i` from the loop head into
flight, the step was `passDur`/`passCount` and its guard held. -/
theorem step_flight_inversion {env : RunEnv} {s s2 : RunState} {i : ℕ}
    (hstep : Step env s s2)
    (hw1 : s.workers[i]? = some WorkerPhase.head)
    (hw2 : s2.workers[i]? = some WorkerPhase.flight) :
    (env.useDuration = true → s.clock + requestTimeout ≤ env.endTime)
    ∧ (env.useDuration = false → (s.log.length : ℤ) < env.cfg.Count) := by
  cases hstep with
  | tick t ht =>
    dsimp only at hw2
    rw [hw1] at hw2
    simp at hw2
  | cancel j hc hw =>
    dsimp only at hw2
    by_cases hij : j = i
    · subst hij
      rw [List.getElem?_set_eq (getElem?_lt hw1)] at hw2
      simp at hw2
    · rw [List.getElem?_set_ne hij] at hw2
      rw [hw1] at hw2
      simp at hw2
  | stopDur j hm hw hg =>
    dsimp only at hw2
    by_cases hij : j = i
    · subst hij
      rw [List.getElem?_set_eq (getElem?_lt hw1)] at hw2
      simp at hw2
    · rw [List.getElem?_set_ne hij] at hw2
      rw [hw1] at hw2
      simp at hw2
  | passDur j hm hw hg =>
    refine ⟨fun _ => hg, fun hm2 => ?_⟩
    rw [hm2] at hm
    exact absurd hm (by simp)
  | stopCount j hm hw hg =>
    dsimp only at hw2
    by_cases hij : j = i
    · subst hij
      rw [List.getElem?_set_eq (getElem?_lt hw1)] at hw2
      simp at hw2
    · rw [List.getElem?_set_ne hij] at hw2
      rw [hw1] at hw2
      simp at hw2
  | passCount j hm hw hg =>
    refine ⟨fun hm2 => ?_, fun _ => hg⟩
    rw [hm2] at hm
    exact absurd hm (by simp)
  | constructFail j hw =>
    dsimp only at hw2
    by_cases hij : j = i
    · subst hij
      rw [List.getElem?_set_eq (getElem?_lt hw1)] at hw2
      simp at hw2
    · rw [List.getElem?_set_ne hij] at hw2
      rw [hw1] at hw2
      simp at hw2
  | record j d st hw hd =>
    dsimp only at hw2
    by_cases hij : j = i
    · subst hij
      rw [List.getElem?_set_eq (getElem?_lt hw1)] at hw2
      simp at hw2
    · rw [List.getElem?_set_ne hij] at hw2
      rw [hw1] at hw2
      simp at hw2
  | append j d st ts hw =>
    dsimp only at hw2
    by_cases hij : j = i
    · subst hij
      rw [List.getElem?_set_eq (getElem?_lt hw1)] at hw2
      simp at hw2
    · rw [List.getElem?_set_ne hij] at hw2
      rw [hw1] at hw2
      simp at hw2

/-- The step relation never inspects the configured URL (nor method,
headers, body or credentials): `runLoadTest` performs no configuration
validation. -/
theorem step_url_irrelevant (env : RunEnv) (u : String) (s s2 : RunState) :
    Step { env with cfg := { env.cfg with URL := u } } s s2 ↔ Step env s s2 := by
  constructor
  · intro h
    cases h with
    | tick t ht => exact Step.tick _ t ht
    | cancel i hc hw => exact Step.cancel _ i hc hw
    | stopDur i hm hw hg => exact Step.stopDur _ i hm hw hg
    | passDur i hm hw hg => exact Step.passDur _ i hm hw hg
    | stopCount i hm hw hg => exact Step.stopCount _ i hm hw hg
    | passCount i hm hw hg => exact Step.passCount _ i hm hw hg
    | constructFail i hw => exact Step.constructFail _ i hw
    | record i d st hw hd => exact Step.record _ i d st hw hd
    | append i d st ts hw => exact Step.append _ i d st ts hw
  · intro h
    cases h with
    | tick t ht => exact Step.tick _ t ht
    | cancel i hc hw => exact Step.cancel _ i hc hw
    | stopDur i hm hw hg => exact Step.stopDur _ i hm hw hg
    | passDur i hm hw hg => exact Step.passDur _ i hm hw hg
    | stopCount i hm hw hg => exact Step.stopCount _ i hm hw hg
    | passCount i hm hw hg => exact Step.passCount _ i hm hw hg
    | constructFail i hw => exact Step.constructFail _ i hw
    | record i d st hw hd => exact Step.record _ i d st hw hd
    | append i d st ts hw => exact Step.append _ i d st ts hw

/-! ### Claim theorems -/

/-- C1 counterexample: in count mode with `Count = 1` and two concurrent
workers, both workers can pass the `len(results) >= cfg.Count` check
(lines 789-795) while the log is still empty, because the check and the
append (lines 849-872) are separate critical sections; the run then
terminates with `Total = 2 ≠ 1`, refuting `stats.Total` exactly equal to
`cfg.Count` under concurrency. -/
theorem C1_counterexample :
    envRace.useDuration = false ∧ envRace.canCancel = false
    ∧ envRace.cfg.Count = 1 ∧ numUsers envRace.cfg = 2
    ∧ Reach envRace (initState envRace 0) raceFinal
    ∧ Terminal raceFinal
    ∧ (finalStats raceFinal.log raceFinal.acc 1).Total ≠ envRace.cfg.Count := by
  refine ⟨rfl, rfl, rfl, by decide, raceReach, by decide, ?_⟩
  rw [finalStats_Total]
  decide

/-- C1 amended: in every terminating, uncancelled count-mode run the final
log length is at least `cfg.Count` and at most
`cfg.Count + (users - 1)`; `stats.Total` equals the log length.  Equality
with `cfg.Count` is only guaranteed for a single worker. -/
theorem C1_count_mode_bounds {env : RunEnv} {t0 : ℚ} {s : RunState}
    (hm : env.useDuration = false) (hcc : env.canCancel = false)
    (hcnt : 1 ≤ env.cfg.Count)
    (hr : Reach env (initState env t0) s) (ht : Terminal s) (e : ℚ) :
    env.cfg.Count ≤ (s.log.length : ℤ)
    ∧ (s.log.length : ℤ) ≤ env.cfg.Count - 1 + (numUsers env.cfg : ℤ)
    ∧ (finalStats s.log s.acc e).Total = (s.log.length : ℤ) := by
  have inv := inv_reach hr
  refine ⟨inv.done_count hm hcc (terminal_done_mem hr ht), ?_,
    finalStats_Total _ _ _⟩
  have h0 := inv.count_bound hm hcnt
  have h1 := flightCount_terminal ht
  omega

/-- Witness for the amended C1 on a concrete single-worker run. -/
theorem C1_witness :
    envOne.cfg.Count ≤ (okFinal.log.length : ℤ)
    ∧ (okFinal.log.length : ℤ)
        ≤ envOne.cfg.Count - 1 + (numUsers envOne.cfg : ℤ)
    ∧ (finalStats okFinal.log okFinal.acc 1).Total = (okFinal.log.length : ℤ) :=
  @C1_count_mode_bounds envOne 0 okFinal rfl rfl
    (by decide) okReach (by decide) 1

/-- C2 amended: a worker never starts a new attempt once fewer than one
request-timeout (10 s) remains before the deadline — any step that moves a
worker from the loop head into flight in duration mode requires
`clock + 10 ≤ endTime` (the guard at line 800); but for `Duration = 2`
(≤ 10) this guard is active from the start, so the run records nothing and
`Total = 0` — the elapsed time is not bounded below by 2 s. -/
theorem C2_duration_guard :
    (∀ (env : RunEnv) (s s2 : RunState) (i : ℕ), env.useDuration = true →
      Step env s s2 → s.workers[i]? = some WorkerPhase.head →
      s2.workers[i]? = some WorkerPhase.flight →
      s.clock + requestTimeout ≤ env.endTime)
    ∧ (∀ (env : RunEnv) (t0 : ℚ) (s : RunState), env.cfg.Duration = 2 →
        env.startTime < t0 → Reach env (initState env t0) s →
        s.log = []
        ∧ (finalStats s.log s.acc (s.clock - env.startTime)).Total = 0) := by
  constructor
  · intro env s s2 i hm hstep hw1 hw2
    exact (step_flight_inversion hstep hw1 hw2).1 hm
  · intro env t0 s hd2 hst hr
    have inv := inv_reach hr
    have hm : env.useDuration = true := (useDuration_iff env).mpr (by omega)
    have hend : env.endTime ≤ env.startTime + requestTimeout := by
      unfold RunEnv.endTime requestTimeout
      rw [hd2]
      norm_num
    obtain ⟨hlog, _⟩ := inv.quiet_short hm hst hend
    refine ⟨hlog, ?_⟩
    rw [finalStats_Total, hlog]
    rfl

/-- C2 counterexample: a `Duration = 2` run that terminates with zero
attempts and zero elapsed wall-clock time — not with elapsed time between
2 s and 2 s plus one attempt timeout. -/
theorem C2_counterexample :
    envDur2.cfg.Duration = 2
    ∧ Reach envDur2 (initState envDur2 0) dur2Final
    ∧ Terminal dur2Final
    ∧ dur2Final.clock - envDur2.startTime = 0
    ∧ dur2Final.clock - envDur2.startTime < 2
    ∧ dur2Final.log = []
    ∧ (finalStats dur2Final.log dur2Final.acc 1).Total = 0 := by
  refine ⟨rfl, dur2Reach, by decide, by norm_num [dur2Final, envDur2],
    by norm_num [dur2Final, envDur2], rfl, ?_⟩
  rw [finalStats_Total]
  rfl

/-- Witness for the amended C2: a concrete duration-mode pass step (at
`Duration = 20`) satisfying the guard bound, and the concrete `Duration
= 2` run with an empty log. -/
theorem C2_witness :
    ((initState envDur20 0).clock + requestTimeout ≤ envDur20.endTime)
    ∧ (dur2FinalLate.log = []
       ∧ (finalStats dur2FinalLate.log dur2FinalLate.acc
           (dur2FinalLate.clock - envDur2.startTime)).Total = 0) := by
  refine ⟨?_, C2_duration_guard.2 envDur2 1 dur2FinalLate rfl
    (by norm_num [envDur2]) dur2LateReach⟩
  refine C2_duration_guard.1 envDur20 (initState envDur20 0)
    { initState envDur20 0 with
        workers := (initState envDur20 0).workers.set 0 WorkerPhase.flight }
    0 rfl ?_ rfl rfl
  exact Step.passDur _ 0 rfl rfl
    (by norm_num [RunEnv.endTime, requestTimeout, envDur20, cfgDur20, initState])

/-- C3: in duration mode with `0 < Duration ≤ 10` seconds, the pre-flight
guard `time.Now().Add(10*time.Second).After(endTime)` (line 800) is
already true whenever a worker reaches it strictly after `startTime`, so
every worker exits before issuing a single request and `runLoadTest`
returns an empty log with all-zero statistics, regardless of
`ConcurrentUsers`. -/
theorem C3_short_duration_zero_run {env : RunEnv} {t0 : ℚ} {s : RunState}
    (hd0 : 0 < env.cfg.Duration) (hd10 : env.cfg.Duration ≤ 10)
    (hst : env.startTime < t0)
    (hr : Reach env (initState env t0) s) (ht : Terminal s) :
    s.log = [] ∧ s.acc = initAccum
    ∧ finalStats s.log s.acc (s.clock - env.startTime) = zeroStats := by
  have inv := inv_reach hr
  have hm : env.useDuration = true := (useDuration_iff env).mpr hd0
  have hend : env.endTime ≤ env.startTime + requestTimeout := by
    have h10 : (env.cfg.Duration : ℚ) ≤ 10 := by exact_mod_cast hd10
    unfold RunEnv.endTime requestTimeout
    linarith
  obtain ⟨hlog, _⟩ := inv.quiet_short hm hst hend
  have hacc := terminal_empty_acc hr ht hlog
  refine ⟨hlog, hacc, ?_⟩
  rw [hlog, hacc, finalStats_nil]
  rfl

/-- Witness for C3 at `Duration = 2`, one worker, first check at clock 1. -/
theorem C3_witness :
    dur2FinalLate.log = [] ∧ dur2FinalLate.acc = initAccum
    ∧ finalStats dur2FinalLate.log dur2FinalLate.acc
        (dur2FinalLate.clock - envDur2.startTime) = zeroStats :=
  C3_short_duration_zero_run (by decide) (by decide) (by norm_num [envDur2])
    dur2LateReach (by decide)

/-- C4 amended: `runLoadTest` performs no configuration validation and has
no synchronous error channel: its transition relation is independent of
the configured URL, and a non-positive count with non-positive duration
yields an immediate empty run with no error reported; an invalid (empty)
URL does not stop a run from issuing requests. -/
theorem C4_no_validation :
    (∀ (env : RunEnv) (u : String) (s s2 : RunState),
      Step { env with cfg := { env.cfg with URL := u } } s s2 ↔ Step env s s2)
    ∧ (∀ (env : RunEnv) (t0 : ℚ) (s : RunState), env.cfg.Duration ≤ 0 →
        env.cfg.Count ≤ 0 → Reach env (initState env t0) s → s.log = []) := by
  refine ⟨step_url_irrelevant, ?_⟩
  intro env t0 s hd hc hr
  exact ((inv_reach hr).quiet_nonpos ((useDuration_false_iff env).mpr hd) hc).1

/-- C4 counterexample: with the invalid configuration `URL = ""` and
`Count = 1`, `runLoadTest` runs to completion, issues a request and
records its transport failure (status 0) — no configuration error is
detected before starting workers and a (partial) run does occur. -/
theorem C4_counterexample :
    envOne.cfg.URL = ""
    ∧ Reach envOne (initState envOne 0) oneFinal
    ∧ Terminal oneFinal
    ∧ oneFinal.log.length = 1
    ∧ oneFinal.log.head?
        = some { Seq := 1, Timestamp := "", Duration := 3, Status := 0 }
    ∧ (finalStats oneFinal.log oneFinal.acc 1).Total = 1 := by
  refine ⟨rfl, oneReach, by decide, rfl, rfl, ?_⟩
  rw [finalStats_Total]
  rfl

/-- Witness for the amended C4: changing the URL preserves a concrete
step, and a concrete `Count = 0` run ends with an empty log. -/
theorem C4_witness :
    Step { envRace with cfg := { envRace.cfg with URL := "" } }
      (initState envRace 0)
      { initState envRace 0 with
          workers := (initState envRace 0).workers.set 0 WorkerPhase.flight }
    ∧ zeroFinal.log = [] := by
  constructor
  · exact (C4_no_validation.1 envRace "" _ _).mpr
      (Step.passCount _ 0 rfl rfl (by decide))
  · exact C4_no_validation.2 envZero 0 zeroFinal (by decide) (by decide)
      zeroReach

/-- C5 amended: a result is a success exactly when its status lies in
`[200, 400)` (line 842); every status `0` or `≥ 400` is counted as an
error, and `ErrorRate = (Total - Success) * 100 / Total` with truncating
integer division (line 952); but the converse fails: any status `< 200`
(such as 101) is also an error despite being neither 0 nor `≥ 400`. -/
theorem C5_success_classification :
    (∀ st : ℤ, isSuccessStatus st = true ↔ (200 ≤ st ∧ st < 400))
    ∧ (∀ st : ℤ, (st = 0 ∨ 400 ≤ st) → isSuccessStatus st = false)
    ∧ (∀ st : ℤ, isSuccessStatus st = false ↔ (st < 200 ∨ 400 ≤ st))
    ∧ (∀ (results : List BenchmarkResult) (acc : Accum) (e : ℚ),
        results ≠ [] →
        (finalStats results acc e).ErrorRate
          = Int.tdiv (((results.length : ℤ) - acc.successCount) * 100)
              (results.length : ℤ)) := by
  refine ⟨?_, ?_, ?_, ?_⟩
  · intro st
    simp [isSuccessStatus]
  · intro st h
    simp only [isSuccessStatus, Bool.and_eq_false_imp]
    rcases h with h | h <;> simp <;> omega
  · intro st
    simp [isSuccessStatus]
    omega
  · intro results acc e h
    rw [finalStats_of_ne_nil results acc e h]

/-- C5 counterexample: status 101 is counted as an error — it is not a
success and a run consisting of one such result has `ErrorRate = 100` —
yet 101 is neither 0 nor ≥ 400. -/
theorem C5_counterexample :
    isSuccessStatus result101.Status = false
    ∧ (finalStats [result101] (bumpSuccess initAccum result101.Status) 1).ErrorRate
        = 100
    ∧ ¬(result101.Status = 0 ∨ 400 ≤ result101.Status) := by
  refine ⟨by decide, ?_, by decide⟩
  rw [finalStats_of_ne_nil _ _ _ (by simp)]
  decide

/-- Witness for the amended C5 at concrete statuses. -/
theorem C5_witness :
    isSuccessStatus 404 = false
    ∧ (isSuccessStatus 200 = true ↔ (200 ≤ (200 : ℤ) ∧ (200 : ℤ) < 400))
    ∧ (finalStats [result200] (bumpSuccess initAccum result200.Status) 1).ErrorRate
        = Int.tdiv
            (((1 : ℤ) - (bumpSuccess initAccum result200.Status).successCount)
              * 100) 1 := by
  refine ⟨C5_success_classification.2.1 404 (by norm_num),
    C5_success_classification.1 200, ?_⟩
  have h := C5_success_classification.2.2.2 [result200]
    (bumpSuccess initAccum result200.Status) 1 (by simp)
  simpa using h

/-- C6: for every non-empty result log the final pass sorts the recorded
durations ascending (a permutation of them), reads the percentiles at
nearest-rank indices `floor(p * N)` clamped to `N - 1` — always in
bounds — and consequently `P90 ≤ P95 ≤ P99`. -/
theorem C6_percentiles {results : List BenchmarkResult} (acc : Accum) (e : ℚ)
    (h : results ≠ []) :
    (exchangeSort (results.map (fun r => r.Duration))).Sorted (· ≤ ·)
    ∧ (exchangeSort (results.map (fun r => r.Duration))).Perm
        (results.map (fun r => r.Duration))
    ∧ (percentileIndex (9/10) results.length).toNat < results.length
    ∧ (percentileIndex (19/20) results.length).toNat < results.length
    ∧ (percentileIndex (99/100) results.length).toNat < results.length
    ∧ (finalStats results acc e).P90
        = (exchangeSort (results.map (fun r => r.Duration))).getD
            (percentileIndex (9/10) results.length).toNat 0
    ∧ (finalStats results acc e).P95
        = (exchangeSort (results.map (fun r => r.Duration))).getD
            (percentileIndex (19/20) results.length).toNat 0
    ∧ (finalStats results acc e).P99
        = (exchangeSort (results.map (fun r => r.Duration))).getD
            (percentileIndex (99/100) results.length).toNat 0
    ∧ (finalStats results acc e).P90 ≤ (finalStats results acc e).P95
    ∧ (finalStats results acc e).P95 ≤ (finalStats results acc e).P99 := by
  have hn : 1 ≤ results.length := by
    have := List.length_pos.mpr h
    omega
  have hlt90 := percentileIndex_lt (9/10) results.length
  have hlt95 := percentileIndex_lt (19/20) results.length
  have hlt99 := percentileIndex_lt (99/100) results.length
  have hge90 : 0 ≤ percentileIndex (9/10) results.length :=
    percentileIndex_nonneg (by norm_num) hn
  have hge95 : 0 ≤ percentileIndex (19/20) results.length :=
    percentileIndex_nonneg (by norm_num) hn
  have hge99 : 0 ≤ percentileIndex (99/100) results.length :=
    percentileIndex_nonneg (by norm_num) hn
  have hm1 := percentileIndex_mono (p := 9/10) (q := 19/20) (by norm_num)
    results.length
  have hm2 := percentileIndex_mono (p := 19/20) (q := 99/100) (by norm_num)
    results.length
  have hb90 : (percentileIndex (9/10) results.length).toNat < results.length := by
    omega
  have hb95 : (percentileIndex (19/20) results.length).toNat < results.length := by
    omega
  have hb99 : (percentileIndex (99/100) results.length).toNat < results.length := by
    omega
  have hF := finalStats_of_ne_nil results acc e h
  have hsorted := exchangeSort_sorted (results.map (fun r => r.Duration))
  have hlen : (exchangeSort (results.map (fun r => r.Duration))).length
      = results.length := by
    rw [exchangeSort_length, List.length_map]
  have hj95 : (percentileIndex (19/20) results.length).toNat
      < (exchangeSort (results.map (fun r => r.Duration))).length := by
    rw [hlen]
    exact hb95
  have hj99 : (percentileIndex (99/100) results.length).toNat
      < (exchangeSort (results.map (fun r => r.Duration))).length := by
    rw [hlen]
    exact hb99
  refine ⟨hsorted, exchangeSort_perm _, hb90, hb95, hb99, by rw [hF],
    by rw [hF], by rw [hF], ?_, ?_⟩
  · rw [hF]
    exact sorted_getD_mono hsorted (by omega) hj95
  · rw [hF]
    exact sorted_getD_mono hsorted (by omega) hj99

/-- Witness for C6 on a one-element log. -/
theorem C6_witness :
    ([result200] ≠ [])
    ∧ (finalStats [result200] initAccum 1).P90
        ≤ (finalStats [result200] initAccum 1).P95
    ∧ (percentileIndex (99/100) [result200].length).toNat
        < [result200].length := by
  have h := @C6_percentiles [result200] initAccum 1 (by simp)
  exact ⟨by simp, h.2.2.2.2.2.2.2.2.1, h.2.2.2.2.1⟩

/-- C7: for every completed run, `stats.Total` equals the length of the
returned result log and `stats.Success ≤ stats.Total`. -/
theorem C7_total_success {env : RunEnv} {t0 : ℚ} {s : RunState}
    (hr : Reach env (initState env t0) s) (ht : Terminal s) (e : ℚ) :
    (finalStats s.log s.acc e).Total = (s.log.length : ℤ)
    ∧ (finalStats s.log s.acc e).Success ≤ (finalStats s.log s.acc e).Total := by
  have hsc := (terminal_acc hr ht).1
  refine ⟨finalStats_Total _ _ _, ?_⟩
  rw [finalStats_Total, finalStats_Success, hsc]
  have := countSuccess_le_length s.log
  omega

/-- Witness for C7 on a concrete completed run. -/
theorem C7_witness :
    (finalStats okFinal.log okFinal.acc 1).Total = (okFinal.log.length : ℤ)
    ∧ (finalStats okFinal.log okFinal.acc 1).Success
        ≤ (finalStats okFinal.log okFinal.acc 1).Total :=
  C7_total_success okReach (by decide) 1

/-- C8: a run that recorded zero attempts yields all-zero statistics,
with the internal 999999 `minDur` sentinel normalized to 0 in the exposed
struct (the `Total > 0` guard also means no division is performed). -/
theorem C8_empty_summary {env : RunEnv} {t0 : ℚ} {s : RunState}
    (hr : Reach env (initState env t0) s) (ht : Terminal s)
    (hempty : s.log = []) (e : ℚ) :
    initAccum.minDur = 999999 ∧ s.acc = initAccum
    ∧ finalStats s.log s.acc e = zeroStats := by
  have hacc := terminal_empty_acc hr ht hempty
  refine ⟨rfl, hacc, ?_⟩
  rw [hempty, hacc, finalStats_nil]
  rfl

/-- Witness for C8 on the concrete `Count = 0` run. -/
theorem C8_witness :
    initAccum.minDur = 999999 ∧ zeroFinal.acc = initAccum
    ∧ finalStats zeroFinal.log zeroFinal.acc 1 = zeroStats :=
  C8_empty_summary zeroReach (by decide) rfl 1

/-- C9: in every reachable state the i-th log entry (0-based) carries
`Seq = i + 1` — sequence numbers are assigned as `len(log) + 1` under the
log lock at append time (line 861), i.e. in completion order — and hence
they are strictly increasing along the log. -/
theorem C9_seq_numbers {env : RunEnv} {t0 : ℚ} {s : RunState}
    (hr : Reach env (initState env t0) s) :
    (∀ (i : ℕ) (h : i < s.log.length), (s.log.get ⟨i, h⟩).Seq = (i : ℤ) + 1)
    ∧ (∀ (i j : ℕ) (hi : i < s.log.length) (hj : j < s.log.length), i < j →
        (s.log.get ⟨i, hi⟩).Seq < (s.log.get ⟨j, hj⟩).Seq) := by
  have hs := (inv_reach hr).seq_ok
  refine ⟨hs, fun i j hi hj hij => ?_⟩
  rw [hs i hi, hs j hj]
  omega

/-- Witness for C9 on the concrete two-append run. -/
theorem C9_witness :
    (raceFinal.log.get ⟨0, by decide⟩).Seq = (0 : ℤ) + 1
    ∧ (raceFinal.log.get ⟨0, by decide⟩).Seq
        < (raceFinal.log.get ⟨1, by decide⟩).Seq := by
  have h := C9_seq_numbers raceReach
  exact ⟨by simpa using h.1 0 (by decide),
    h.2 0 1 (by decide) (by decide) (by decide)⟩

/-- C10: `executeRequest` is total — it returns a result stamped with the
given sequence number for every input; on a construction failure the
result is `{Seq, now, 0, 0}`; on a transport failure the status is 0 and
the duration is the measured elapsed time; and, in contrast, the batch
worker loop's construction-failure path records nothing (its step leaves
the log and accumulators unchanged). -/
theorem C10_executeRequest_total (cfg : RequestConfig) (seq : ℤ)
    (o : HttpOutcome) :
    (executeRequest cfg seq o).Seq = seq
    ∧ (o.constructErr = true →
        executeRequest cfg seq o
          = { Seq := seq, Timestamp := o.nowStr, Duration := 0, Status := 0 })
    ∧ (o.constructErr = false → o.sendErr = true →
        (executeRequest cfg seq o).Status = 0
        ∧ (executeRequest cfg seq o).Duration = o.elapsedMs)
    ∧ (∀ (env : RunEnv) (s : RunState) (i : ℕ),
        s.workers[i]? = some WorkerPhase.flight →
        Step env s { s with workers := s.workers.set i WorkerPhase.head }) := by
  refine ⟨?_, ?_, ?_, fun env s i hw => Step.constructFail s i hw⟩
  · unfold executeRequest
    split <;> rfl
  · intro h
    simp [executeRequest, h]
  · intro h1 h2
    simp [executeRequest, h1, h2]

/-- Witness for C10 on a concrete transport-failure outcome. -/
theorem C10_witness :
    (executeRequest cfgOne 5 sendFailOutcome).Seq = 5
    ∧ (executeRequest cfgOne 5 sendFailOutcome).Status = 0
    ∧ (executeRequest cfgOne 5 sendFailOutcome).Duration = 7 := by
  have h := C10_executeRequest_total cfgOne 5 sendFailOutcome
  exact ⟨h.1, (h.2.2.1 rfl rfl).1, (h.2.2.1 rfl rfl).2⟩

end BenchmarkMe
